import Mathlib

/-!
Verification of the STL-rs core: the type-tag encoder and the
drop/move/copy/fill operation tables of `src/semantics.rs`, and the
small-buffer UTF-16 string of `src/string/utf16.rs`.

Machine integers are modelled as `Nat` with explicit reduction modulo
`2 ^ 64` where the Rust code performs wrapping `usize` arithmetic.
Memory is modelled as a total map `Int → α` from element addresses to
values; a raw pointer is an `Int` address and `ptr.offset(i)` is `+ i`.
The element-by-element loops of the range runtime become `List.foldl`
over `List.range (last - first).toNat`: Rust's `for i in 0..n` with
`n : isize` runs `i = 0, 1, ..., n-1` for positive `n` and runs zero
iterations when `n ≤ 0`, which is exactly `List.range n.toNat`.
Fallible code (the `expect` in `raw_drop`, the overflow `panic!` in
`reserve`) is modelled with `Except String`, the error case standing for
the abort.
-/

/-- Modulus of 64-bit `usize` arithmetic, `2 ^ 64`. -/
def USIZE_MOD : Nat := 18446744073709551616

/-- Largest `isize` value, `2 ^ 63 - 1` (`isize::MAX` in `reserve`). -/
def ISIZE_MAX : Nat := 9223372036854775807

/-- Model of `usize::wrapping_neg` on 64-bit words. -/
def wrapping_neg (x : Nat) : Nat := (USIZE_MOD - x % USIZE_MOD) % USIZE_MOD

/-- Model of wrapping `usize` subtraction `a - b` on 64-bit words. -/
def usize_sub (a b : Nat) : Nat := (USIZE_MOD + a % USIZE_MOD - b % USIZE_MOD) % USIZE_MOD

/-- Model of wrapping `usize` addition `a + b` on 64-bit words. -/
def usize_add (a b : Nat) : Nat := (a + b) % USIZE_MOD

/-- `BaseType::SIZE` (semantics.rs:26-30): the type's size, except that a
zero-sized type reports size 1. `rawSize` is `mem::size_of::<Self>()`. -/
def SIZE (rawSize : Nat) : Nat := if rawSize ≠ 0 then rawSize else 1

/-- `BaseType::TYPE` (semantics.rs:17-21): the CSTL type tag. When
`SIZE & ALIGN == 0` it is `usize::wrapping_neg(SIZE | ALIGN)`, otherwise
`SIZE`, cast to the machine-word tag type. -/
def TYPE (rawSize align : Nat) : Nat :=
  if SIZE rawSize &&& align = 0 then wrapping_neg (SIZE rawSize ||| align)
  else SIZE rawSize % USIZE_MOD

/-- Spec-side size adjustment, following the spec's words: zero-sized
types report size 1 before encoding. Together with `encodeSpec` below it
restates the spec's encoding rule, to be compared against the source
definition `TYPE`. -/
def encodeSpecSize (rawSize : Nat) : Nat := if rawSize = 0 then 1 else rawSize

/-- Spec-side encoding rule, in the spec's words, applied to the adjusted
size: when `size & align == 0` the tag is `-(size | align)` reinterpreted
as an unsigned word, otherwise the tag is `size` directly. -/
def encodeSpec (rawSize align : Nat) : Nat :=
  if encodeSpecSize rawSize &&& align = 0 then
    ((-((encodeSpecSize rawSize ||| align : Nat) : Int)) % (USIZE_MOD : Int)).toNat
  else encodeSpecSize rawSize

/-- Addresses dropped by `drop_in_place` on the `len`-element slice starting
at `first`: elements are destroyed front to back, one per index. -/
def drop_trace (first : Int) (n : Nat) : List Int :=
  (List.range n).map (fun (i : Nat) => first + (i : Int))

/-- `BaseType::raw_drop` (semantics.rs:40-49): computes
`last.offset_from(first)` and converts it to `usize` via
`try_into().expect(...)`, which aborts when the difference is negative;
otherwise it drops the slice `[first, first + len)` in place, front to
back. The result is the list of dropped element addresses in destruction
order, or the abort. -/
def raw_drop (first last : Int) : Except String (List Int) :=
  if last - first < 0 then Except.error "`first` > `last`"
  else Except.ok (drop_trace first (last - first).toNat)

/-- One iteration of the `MoveType::raw_move` loop (semantics.rs:69-71):
`dest.offset(i).write(mem::take(first.offset(i).as_mut()))` reads the
value at `first + i`, leaves `Default::default()` in its place, and then
writes the taken value to `dest + i` (so when the two addresses
coincide, the taken value wins). -/
def move_step {α : Type} (dflt : α) (first dest : Int) (m : Int → α) (i : Nat) : Int → α :=
  fun a => if a = dest + (i : Int) then m (first + (i : Int))
    else if a = first + (i : Int) then dflt else m a

/-- `MoveType::raw_move` (semantics.rs:67-73): for `i` in
`0..last.offset_from(first)`, take the value at `first + i` (leaving the
default value `dflt` behind) and write it to `dest + i`. -/
def raw_move {α : Type} (dflt : α) (first last dest : Int) (m : Int → α) : Int → α :=
  (List.range (last - first).toNat).foldl (move_step dflt first dest) m

/-- One iteration of the clone-into-dest loop shared by
`CopyMoveType::raw_copy`, `CopyOnlyType::raw_move` and
`CopyOnlyType::raw_copy`:
`dest.offset(i).write(first.offset(i).as_ref().clone())`. -/
def copy_step {α : Type} (clone : α → α) (first dest : Int) (m : Int → α) (i : Nat) : Int → α :=
  fun a => if a = dest + (i : Int) then clone (m (first + (i : Int))) else m a

/-- `CopyMoveType::raw_copy` (semantics.rs:91-97): for `i` in
`0..last.offset_from(first)`, write a clone of the value at `first + i`
to `dest + i`. -/
def raw_copy {α : Type} (clone : α → α) (first last dest : Int) (m : Int → α) : Int → α :=
  (List.range (last - first).toNat).foldl (copy_step clone first dest) m

/-- One iteration of the fill loop of `CopyMoveType::raw_fill` /
`CopyOnlyType::raw_fill`:
`first.offset(i).write(value.as_ref().clone())`, where `value` is the
address of the value being replicated. -/
def fill_step {α : Type} (clone : α → α) (first value : Int) (m : Int → α) (i : Nat) : Int → α :=
  fun a => if a = first + (i : Int) then clone (m value) else m a

/-- `CopyMoveType::raw_fill` (semantics.rs:99-105): for `i` in
`0..last.offset_from(first)`, write a clone of the value at address
`value` to `first + i`. -/
def raw_fill {α : Type} (clone : α → α) (first last value : Int) (m : Int → α) : Int → α :=
  (List.range (last - first).toNat).foldl (fill_step clone first value) m

/-- `CopyOnlyType::raw_move` (semantics.rs:130-136): move degenerates to
copy; the loop body is the same clone-into-dest write as `raw_copy`. -/
def copy_only_raw_move {α : Type} (clone : α → α) (first last dest : Int) (m : Int → α) :
    Int → α :=
  (List.range (last - first).toNat).foldl (copy_step clone first dest) m

/-- `CopyOnlyType::raw_copy` (semantics.rs:138-144). -/
def copy_only_raw_copy {α : Type} (clone : α → α) (first last dest : Int) (m : Int → α) :
    Int → α :=
  (List.range (last - first).toNat).foldl (copy_step clone first dest) m

/-- `CopyOnlyType::raw_fill` (semantics.rs:146-152). -/
def copy_only_raw_fill {α : Type} (clone : α → α) (first last value : Int) (m : Int → α) :
    Int → α :=
  (List.range (last - first).toNat).foldl (fill_step clone first value) m

/-- `CSTL_DropType`: the destructible-type table, holding the drop
primitive for element type `α`. -/
structure CSTL_DropType (α : Type) where
  drop : Int → Int → Except String (List Int)

/-- `CSTL_MoveType`: the movable-type table; embeds the drop table. -/
structure CSTL_MoveType (α : Type) where
  drop_type : CSTL_DropType α
  move_ : Int → Int → Int → (Int → α) → (Int → α)

/-- `CSTL_CopyType`: the copyable-type table; embeds the move table. -/
structure CSTL_CopyType (α : Type) where
  move_type : CSTL_MoveType α
  copy : Int → Int → Int → (Int → α) → (Int → α)
  fill : Int → Int → Int → (Int → α) → (Int → α)

/-- `BaseType::DROP` (semantics.rs:36-38): the drop table of any sized
type. -/
def DROP (α : Type) : CSTL_DropType α := ⟨raw_drop⟩

/-- `MoveType::MOVE` (semantics.rs:62-65): the move table of a `Default`
type, with `dflt` the type's `Default::default()` value. -/
def MOVE {α : Type} (dflt : α) : CSTL_MoveType α := ⟨DROP α, raw_move dflt⟩

/-- `CopyMoveType::COPY` (semantics.rs:85-89): the copy table of a
`Clone + Default` type, with `clone` the type's `Clone::clone`. -/
def COPY {α : Type} (dflt : α) (clone : α → α) : CSTL_CopyType α :=
  ⟨MOVE dflt, raw_copy clone, raw_fill clone⟩

/-- `CopyOnlyType::COPY` (semantics.rs:121-128): the copy table of a type
that is `Clone` but not `Default`; its embedded move table pairs the
shared drop table with the degenerate clone-based `raw_move`. -/
def copy_only_COPY {α : Type} (clone : α → α) : CSTL_CopyType α :=
  ⟨⟨DROP α, copy_only_raw_move clone⟩, copy_only_raw_copy clone, copy_only_raw_fill clone⟩

/-- `CSTL_UTF16StringVal` (utf16.rs): the string value, in inline mode:
`bx` is the 8-slot inline code-unit buffer, `size` the length excluding
the terminator, `res` the capacity. -/
structure CSTL_UTF16StringVal where
  bx : List Nat
  size : Nat
  res : Nat

/-- `CxxUtf16String::new` (utf16.rs:21-31): a fresh string value with a
zeroed 8-slot inline buffer, `size = 0` and `res = 7`. -/
def u16string_new : CSTL_UTF16StringVal :=
  { bx := List.replicate 8 0, size := 0, res := 7 }

/-- `CxxUtf16String::len` (utf16.rs:73-75): `self.val.size`. -/
def u16string_len (s : CSTL_UTF16StringVal) : Nat := s.size

/-- `CxxUtf16String::is_empty` (utf16.rs:77-79): `self.val.size == 0`. -/
def u16string_is_empty (s : CSTL_UTF16StringVal) : Bool := s.size == 0

/-- `CxxUtf16String::capacity` (utf16.rs:81-83): `self.val.res`. -/
def u16string_capacity (s : CSTL_UTF16StringVal) : Nat := s.res

/-- `large_mode` as printed by the `Debug` impl (utf16.rs:123):
`self.val.res > 7`; the string is in inline mode exactly when this is
false. -/
def u16string_large_mode (s : CSTL_UTF16StringVal) : Bool := s.res > 7

/-- `CxxUtf16String::reserve` (utf16.rs:99-109), as a function of the
current capacity and the requested additional amount: when
`isize::MAX as usize - capacity < additional` (wrapping `usize`
subtraction) it panics with a descriptive message, otherwise it passes
the requested capacity `capacity + additional` (wrapping `usize`
addition) to `CSTL_u16string_reserve`. The result is the requested
capacity handed to the foreign reserve call, or the panic message. -/
def u16string_reserve (capacity additional : Nat) : Except String Nat :=
  if usize_sub ISIZE_MAX capacity < additional then
    Except.error ("requested capacity (" ++ toString capacity ++ " + " ++
      toString additional ++ ") overflowed `isize::MAX`")
  else
    Except.ok (usize_add capacity additional)

/-- Unfolding `wrapping_neg` into the spec's reading: negation
reinterpreted as an unsigned 64-bit word. -/
theorem wrapping_neg_eq_int_emod (x : Nat) :
    wrapping_neg x = ((-(x : Int)) % (USIZE_MOD : Int)).toNat := by
  unfold wrapping_neg USIZE_MOD
  omega

/-- C2: the encoded type tag equals the wrapping negation of
`size ||| align` reinterpreted as an unsigned machine word when
`size &&& align = 0`, and equals `size` otherwise, where the size used
is the actual size for non-zero-sized types and 1 for zero-sized types;
`TYPE` is a total function of `(size, align)` and never fails, and it
agrees with the spec's encoding rule `encodeSpec` on every `usize`-sized
input. -/
theorem TYPE_eq_encodeSpec (rawSize align : Nat) (h : rawSize < USIZE_MOD) :
    TYPE rawSize align = encodeSpec rawSize align := by
  have hsz : SIZE rawSize = encodeSpecSize rawSize := by
    unfold SIZE encodeSpecSize
    rcases eq_or_ne rawSize 0 with h0 | h0 <;> simp [h0]
  have hlt : encodeSpecSize rawSize < USIZE_MOD := by
    unfold USIZE_MOD at h ⊢
    unfold encodeSpecSize
    rcases eq_or_ne rawSize 0 with h0 | h0 <;> simp [h0] <;> omega
  unfold TYPE encodeSpec
  rw [hsz]
  split
  · exact wrapping_neg_eq_int_emod _
  · exact Nat.mod_eq_of_lt hlt

/-- Witness for C2 at a concrete input. -/
theorem TYPE_eq_encodeSpec_witness : TYPE 16 8 = encodeSpec 16 8 :=
  TYPE_eq_encodeSpec 16 8 (by decide)

/-- C6: the tag encoding is injective over the representative set of
`(size, align)` pairs `(1,1), (4,4), (8,8), (16,8), (24,8)` together
with the pair obtained from a zero-sized type (raw size 0, align 1),
which reports size 1 and therefore coincides with the pair `(1,1)`:
the five distinct pairs produce five pairwise distinct tags. -/
theorem TYPE_injective_on_reps :
    ([TYPE 1 1, TYPE 4 4, TYPE 8 8, TYPE 16 8, TYPE 24 8].Pairwise (· ≠ ·)) ∧
    TYPE 0 1 = TYPE 1 1 := by
  decide

/-- C9: a newly created string has length 0, is empty, has capacity
exactly 7 (the fixed inline capacity, hence inline mode), and holds a
zero terminator at buffer index 0. -/
theorem u16string_new_spec :
    u16string_len u16string_new = 0 ∧
    u16string_is_empty u16string_new = true ∧
    u16string_capacity u16string_new = 7 ∧
    u16string_large_mode u16string_new = false ∧
    (u16string_new.bx)[0]? = some 0 := by
  decide

/-- C8: the derived move table embeds the type's own drop table
(`MOVE.drop_type = DROP`), the derived copy table of a
`Clone + Default` type embeds the type's move table
(`COPY.move_type = MOVE`), and the copy table of a copy-only type embeds
a move table carrying the same drop table. -/
theorem tables_embed_drop_and_move {α : Type} (dflt : α) (clone : α → α) :
    (MOVE dflt).drop_type = DROP α ∧
    (COPY dflt clone).move_type = MOVE dflt ∧
    (copy_only_COPY clone).move_type.drop_type = DROP α :=
  ⟨rfl, rfl, rfl⟩

/-- C4: dropping the valid range `[first, first + n)` succeeds and
destroys exactly `n` elements: the destruction trace has length `n`,
its `i`-th entry is the address `first + i` (so each element is dropped
exactly once, and never more than `n` destructor calls happen), and the
trace is strictly increasing, i.e. ascending index order. -/
theorem raw_drop_trace_spec (first : Int) (n : Nat) :
    raw_drop first (first + (n : Int)) = Except.ok (drop_trace first n) ∧
    (drop_trace first n).length = n ∧
    (∀ i : Nat, i < n → (drop_trace first n)[i]? = some (first + (i : Int))) ∧
    (drop_trace first n).Pairwise (· < ·) := by
  refine ⟨?_, ?_, ?_, ?_⟩
  · unfold raw_drop
    rw [if_neg (by omega)]
    have hn : (first + (n : Int) - first).toNat = n := by omega
    rw [hn]
  · unfold drop_trace
    rw [List.length_map, List.length_range]
  · intro i hi
    unfold drop_trace
    rw [List.getElem?_map, List.getElem?_range hi]
    rfl
  · unfold drop_trace
    refine List.Pairwise.map _ ?_ (List.pairwise_lt_range n)
    intro a b hab
    omega

/-- Witness for C4 at a concrete input. -/
theorem raw_drop_trace_witness :
    raw_drop 3 (3 + ((2 : Nat) : Int)) = Except.ok (drop_trace 3 2) ∧
    (drop_trace 3 2)[1]? = some (3 + ((1 : Nat) : Int)) :=
  ⟨(raw_drop_trace_spec 3 2).1, (raw_drop_trace_spec 3 2).2.2.1 1 (by decide)⟩

/-- C5: calling the drop primitive with `last < first` is a fatal
contract breach: `raw_drop` hits the `expect` on the failed
`isize → usize` conversion and aborts instead of returning a trace or a
recoverable error. -/
theorem raw_drop_abort (first last : Int) (h : last < first) :
    raw_drop first last = Except.error "`first` > `last`" := by
  unfold raw_drop
  rw [if_pos (by omega)]

/-- Witness for C5 at a concrete input. -/
theorem raw_drop_abort_witness : raw_drop 1 0 = Except.error "`first` > `last`" :=
  raw_drop_abort 1 0 (by decide)

/-- Helper for C1: after the first `k` iterations of the `raw_move` loop
on a source range of `n` elements disjoint from the destination range,
untouched addresses are unchanged, each processed destination slot holds
the original source value, and each processed source slot holds the
default value. -/
theorem move_loop_spec {α : Type} (dflt : α) (first dest : Int) (m : Int → α) (n : Nat)
    (hdisj : ∀ i j : Nat, i < n → j < n → first + (i : Int) ≠ dest + (j : Int)) :
    ∀ k : Nat, k ≤ n →
      (∀ a : Int, (∀ i : Nat, i < k → a ≠ first + (i : Int) ∧ a ≠ dest + (i : Int)) →
        (List.range k).foldl (move_step dflt first dest) m a = m a) ∧
      (∀ i : Nat, i < k →
        (List.range k).foldl (move_step dflt first dest) m (dest + (i : Int)) =
          m (first + (i : Int))) ∧
      (∀ i : Nat, i < k →
        (List.range k).foldl (move_step dflt first dest) m (first + (i : Int)) = dflt) := by
  intro k
  induction k with
  | zero =>
    intro _
    exact ⟨fun a _ => rfl, fun i hi => absurd hi (Nat.not_lt_zero i),
      fun i hi => absurd hi (Nat.not_lt_zero i)⟩
  | succ k ih =>
    intro hk
    obtain ⟨ih1, ih2, ih3⟩ := ih (Nat.le_of_succ_le hk)
    have hkn : k < n := hk
    rw [List.range_succ, List.foldl_append, List.foldl_cons, List.foldl_nil]
    have hv : (List.range k).foldl (move_step dflt first dest) m (first + (k : Int)) =
        m (first + (k : Int)) := by
      apply ih1
      intro i hi
      exact ⟨by omega, hdisj k i hkn (Nat.lt_trans hi hkn)⟩
    refine ⟨?_, ?_, ?_⟩
    · intro a ha
      have hak : a ≠ dest + (k : Int) := (ha k (Nat.lt_succ_self k)).2
      have haf : a ≠ first + (k : Int) := (ha k (Nat.lt_succ_self k)).1
      simp only [move_step, if_neg hak, if_neg haf]
      exact ih1 a (fun i hi => ha i (Nat.lt_succ_of_lt hi))
    · intro i hi
      rcases Nat.lt_succ_iff_lt_or_eq.mp hi with hik | rfl
      · have h1 : dest + (i : Int) ≠ dest + (k : Int) := by omega
        have h2 : dest + (i : Int) ≠ first + (k : Int) :=
          (hdisj k i hkn (Nat.lt_trans hik hkn)).symm
        simp only [move_step, if_neg h1, if_neg h2]
        exact ih2 i hik
      · simp only [move_step, if_pos rfl]
        exact hv
    · intro i hi
      rcases Nat.lt_succ_iff_lt_or_eq.mp hi with hik | rfl
      · have h1 : first + (i : Int) ≠ dest + (k : Int) :=
          hdisj i k (Nat.lt_trans hik hkn) hkn
        have h2 : first + (i : Int) ≠ first + (k : Int) := by omega
        simp only [move_step, if_neg h1, if_neg h2]
        exact ih3 i hik
      · have h1 : first + (i : Int) ≠ dest + (i : Int) := hdisj i i hkn hkn
        simp only [move_step, if_neg h1, if_true]

/-- C1: for a type with the default-placeholder move strategy, running
`raw_move` on the range `[first, first + n)` with a destination range
`[dest, dest + n)` disjoint from it (the loop processes indices 0 up to
`n - 1` in forward order) leaves every source slot equal to the type's
default value and writes into every destination slot the value
originally held by the corresponding source slot, for every `n ≥ 0`. -/
theorem raw_move_default_placeholder {α : Type} (dflt : α) (first dest : Int) (n : Nat)
    (m : Int → α)
    (hdisj : ∀ i j : Nat, i < n → j < n → first + (i : Int) ≠ dest + (j : Int)) :
    ∀ i : Nat, i < n →
      raw_move dflt first (first + (n : Int)) dest m (first + (i : Int)) = dflt ∧
      raw_move dflt first (first + (n : Int)) dest m (dest + (i : Int)) =
        m (first + (i : Int)) := by
  intro i hi
  have hn : (first + (n : Int) - first).toNat = n := by omega
  unfold raw_move
  rw [hn]
  obtain ⟨h1, h2, h3⟩ := move_loop_spec dflt first dest m n hdisj n (le_refl n)
  exact ⟨h3 i hi, h2 i hi⟩

/-- Witness for C1 at a concrete input: moving two elements from
addresses 0, 1 to addresses 100, 101. -/
theorem raw_move_default_placeholder_witness :
    raw_move (99 : Int) 0 (0 + ((2 : Nat) : Int)) 100 (fun a => a + 7) (0 + ((1 : Nat) : Int)) =
      99 ∧
    raw_move (99 : Int) 0 (0 + ((2 : Nat) : Int)) 100 (fun a => a + 7) (100 + ((1 : Nat) : Int)) =
      (fun a => a + 7) (0 + ((1 : Nat) : Int)) :=
  raw_move_default_placeholder 99 0 100 2 (fun a => a + 7)
    (fun i j hi hj => by omega) 1 (by decide)

/-- Helper for C3: after the first `k` iterations of the clone-into-dest
loop on a source range of `n` elements disjoint from the destination
range, addresses outside the processed destination slots are unchanged
and each processed destination slot holds a clone of the corresponding
original source value. -/
theorem copy_loop_spec {α : Type} (clone : α → α) (first dest : Int) (m : Int → α) (n : Nat)
    (hdisj : ∀ i j : Nat, i < n → j < n → first + (i : Int) ≠ dest + (j : Int)) :
    ∀ k : Nat, k ≤ n →
      (∀ a : Int, (∀ j : Nat, j < k → a ≠ dest + (j : Int)) →
        (List.range k).foldl (copy_step clone first dest) m a = m a) ∧
      (∀ i : Nat, i < k →
        (List.range k).foldl (copy_step clone first dest) m (dest + (i : Int)) =
          clone (m (first + (i : Int)))) := by
  intro k
  induction k with
  | zero =>
    intro _
    exact ⟨fun a _ => rfl, fun i hi => absurd hi (Nat.not_lt_zero i)⟩
  | succ k ih =>
    intro hk
    obtain ⟨ih1, ih2⟩ := ih (Nat.le_of_succ_le hk)
    have hkn : k < n := hk
    rw [List.range_succ, List.foldl_append, List.foldl_cons, List.foldl_nil]
    have hv : (List.range k).foldl (copy_step clone first dest) m (first + (k : Int)) =
        m (first + (k : Int)) := by
      apply ih1
      intro j hj
      exact hdisj k j hkn (Nat.lt_trans hj hkn)
    refine ⟨?_, ?_⟩
    · intro a ha
      have hak : a ≠ dest + (k : Int) := ha k (Nat.lt_succ_self k)
      simp only [copy_step, if_neg hak]
      exact ih1 a (fun j hj => ha j (Nat.lt_succ_of_lt hj))
    · intro i hi
      rcases Nat.lt_succ_iff_lt_or_eq.mp hi with hik | rfl
      · have h1 : dest + (i : Int) ≠ dest + (k : Int) := by omega
        simp only [copy_step, if_neg h1]
        exact ih2 i hik
      · simp [copy_step, hv]

/-- C3: for a copy-as-move type, running the degenerate
`CopyOnlyType::raw_move` on the range `[first, first + n)` with a
disjoint destination range `[dest, dest + n)` leaves every source slot
holding its pre-move value unchanged and writes into every destination
slot a clone of the corresponding pre-move source value. -/
theorem copy_only_raw_move_spec {α : Type} (clone : α → α) (first dest : Int) (n : Nat)
    (m : Int → α)
    (hdisj : ∀ i j : Nat, i < n → j < n → first + (i : Int) ≠ dest + (j : Int)) :
    ∀ i : Nat, i < n →
      copy_only_raw_move clone first (first + (n : Int)) dest m (first + (i : Int)) =
        m (first + (i : Int)) ∧
      copy_only_raw_move clone first (first + (n : Int)) dest m (dest + (i : Int)) =
        clone (m (first + (i : Int))) := by
  intro i hi
  have hn : (first + (n : Int) - first).toNat = n := by omega
  unfold copy_only_raw_move
  rw [hn]
  obtain ⟨h1, h2⟩ := copy_loop_spec clone first dest m n hdisj n (le_refl n)
  exact ⟨h1 _ (fun j hj => hdisj i j hi hj), h2 i hi⟩

/-- Witness for C3 at a concrete input: copy-as-moving two elements from
addresses 0, 1 to addresses 100, 101 with `clone` doubling the value. -/
theorem copy_only_raw_move_witness :
    copy_only_raw_move (fun v : Int => 2 * v) 0 (0 + ((2 : Nat) : Int)) 100 (fun a => a + 7)
      (0 + ((1 : Nat) : Int)) = (fun a => a + 7) (0 + ((1 : Nat) : Int)) ∧
    copy_only_raw_move (fun v : Int => 2 * v) 0 (0 + ((2 : Nat) : Int)) 100 (fun a => a + 7)
      (100 + ((1 : Nat) : Int)) = (fun v : Int => 2 * v) ((fun a => a + 7) (0 + ((1 : Nat) : Int))) :=
  copy_only_raw_move_spec (fun v : Int => 2 * v) 0 100 2 (fun a => a + 7)
    (fun i j hi hj => by omega) 1 (by decide)

/-- C10: with `last < first`, the per-index loops of the move, copy and
fill primitives (both the default-placeholder and the copy-only table)
run zero iterations, returning the memory unchanged without writing and
without aborting, whereas the drop primitive aborts on the same inputs. -/
theorem negative_range_noop {α : Type} (dflt : α) (clone : α → α)
    (first last dest value : Int) (m : Int → α) (h : last < first) :
    raw_move dflt first last dest m = m ∧
    raw_copy clone first last dest m = m ∧
    raw_fill clone first last value m = m ∧
    copy_only_raw_move clone first last dest m = m ∧
    copy_only_raw_copy clone first last dest m = m ∧
    copy_only_raw_fill clone first last value m = m ∧
    raw_drop first last = Except.error "`first` > `last`" := by
  have h0 : (last - first).toNat = 0 := by omega
  unfold raw_move raw_copy raw_fill copy_only_raw_move copy_only_raw_copy copy_only_raw_fill
    raw_drop
  rw [h0]
  refine ⟨rfl, rfl, rfl, rfl, rfl, rfl, ?_⟩
  rw [if_pos (show last - first < 0 by omega)]

/-- Witness for C10 at a concrete input (`first = 0`, `last = -1`). -/
theorem negative_range_noop_witness :
    raw_move (0 : Int) 0 (-1) 5 (fun a => a) = (fun a : Int => a) ∧
    raw_copy (fun v : Int => v) 0 (-1) 5 (fun a => a) = (fun a : Int => a) ∧
    raw_fill (fun v : Int => v) 0 (-1) 9 (fun a => a) = (fun a : Int => a) ∧
    copy_only_raw_move (fun v : Int => v) 0 (-1) 5 (fun a => a) = (fun a : Int => a) ∧
    copy_only_raw_copy (fun v : Int => v) 0 (-1) 5 (fun a => a) = (fun a : Int => a) ∧
    copy_only_raw_fill (fun v : Int => v) 0 (-1) 9 (fun a => a) = (fun a : Int => a) ∧
    raw_drop 0 (-1) = Except.error "`first` > `last`" :=
  negative_range_noop 0 (fun v : Int => v) 0 (-1) 5 9 (fun a => a) (by decide)

/-- C7: `reserve(additional)` requests exactly
`capacity + additional ≥ capacity + additional` code units from the
foreign reserve call when that sum is representable, and fails with the
descriptive overflow message instead of wrapping when the sum would
exceed `isize::MAX`. -/
theorem u16string_reserve_spec (capacity additional : Nat) (hc : capacity ≤ ISIZE_MAX) :
    (ISIZE_MAX < capacity + additional →
      u16string_reserve capacity additional =
        Except.error ("requested capacity (" ++ toString capacity ++ " + " ++
          toString additional ++ ") overflowed `isize::MAX`")) ∧
    (capacity + additional ≤ ISIZE_MAX →
      ∃ requested, u16string_reserve capacity additional = Except.ok requested ∧
        capacity + additional ≤ requested) := by
  have hsub : usize_sub ISIZE_MAX capacity = ISIZE_MAX - capacity := by
    unfold usize_sub
    unfold ISIZE_MAX USIZE_MOD at *
    omega
  constructor
  · intro hover
    unfold u16string_reserve
    rw [hsub, if_pos (by unfold ISIZE_MAX at *; omega)]
  · intro hle
    refine ⟨capacity + additional, ?_, le_refl _⟩
    unfold u16string_reserve
    rw [hsub, if_neg (by unfold ISIZE_MAX at *; omega)]
    have hadd : usize_add capacity additional = capacity + additional := by
      unfold usize_add
      unfold ISIZE_MAX USIZE_MOD at *
      omega
    rw [hadd]

/-- Witness for C7 at concrete inputs: a representable request succeeds
with the exact total, a request from full capacity overflows. -/
theorem u16string_reserve_witness :
    (∃ requested, u16string_reserve 7 10 = Except.ok requested ∧ 7 + 10 ≤ requested) ∧
    u16string_reserve ISIZE_MAX 1 =
      Except.error ("requested capacity (" ++ toString ISIZE_MAX ++ " + " ++
        toString 1 ++ ") overflowed `isize::MAX`") :=
  ⟨(u16string_reserve_spec 7 10 (by decide)).2 (by decide),
   (u16string_reserve_spec ISIZE_MAX 1 (le_refl _)).1 (by omega)⟩
